import Mathlib

set_option maxRecDepth 100000

/-!
Verification of the solaredge-bsuf repository: a shallow embedding of
`datareader.py` (the layered stream-reader abstraction: `FileReader` over a
seekable byte source, `StreamRange` bounded sub-views, and the in-memory
`DataReader`) and of `dmpbsuf.py` (the `.bsuf` container decoder), together
with theorems about the embedded code.

Modelling conventions:
* bytes are `List Nat`; a seekable byte source (an OS file handle or an
  in-memory buffer, both of which answer reads of `n` bytes with *up to*
  `n` bytes and allow seeking past the end) is `ByteSrc`;
* Python exceptions become an explicit `Err` result; since an exception can
  propagate after the object was already mutated, every operation returns
  its result *and* the post-state;
* the shared mutable file handle that a `FileReader` and all its
  `StreamRange` sub-views alias is threaded explicitly: a `FileReader` value
  is only the view metadata (window + EOF flag) and every operation also
  takes and returns the shared `ByteSrc`;
* the `while` loop of `BsufFile.__init__` is embedded with a fuel parameter
  (`Err.fuelOut` marks exhaustion); the container decoder passes fuel that
  can never run out because each entry consumes at least 8 bytes.
-/

/-- Python exception kinds raised by the embedded code. -/
inductive Err where
  | endOfStream   -- EOFError
  | valueError    -- ValueError (negative seek target)
  | invalidMagic  -- Exception("invalid header magic")
  | structError   -- struct.error (buffer of the wrong length)
  | typeError     -- TypeError (struct.unpack applied to None)
  | nameError     -- NameError (reference to an undefined name)
  | fuelOut       -- modelling artifact: loop fuel exhausted
  deriving DecidableEq, Repr

/-- A seekable byte source: the state of an open OS file (as used by
`datareader.new` on a file handle) or of an in-memory `io.BytesIO`.
`read n` returns up to `n` bytes; a negative or omitted `n` reads to the
end; positions may point past the end of the data. -/
structure ByteSrc where
  data : List Nat
  pos : Nat
  deriving DecidableEq, Repr

/-- `fh.read(n)` on the underlying source: returns at most `n` bytes
(everything to the end when `n` is `None` or negative) and advances. -/
def ByteSrc.read (b : ByteSrc) (n : Option Int) : List Nat × ByteSrc :=
  let avail := b.data.length - b.pos
  let k : Nat :=
    match n with
    | none => avail
    | some m => if m < 0 then avail else min m.toNat avail
  ((b.data.drop b.pos).take k, ⟨b.data, b.pos + k⟩)

/-- `fh.seek(ofs, whence)` on the underlying source; a negative computed
position raises `ValueError`, positions past the end are allowed. -/
def ByteSrc.seek (b : ByteSrc) (ofs : Int) (whence : Nat) :
    Except Err Nat × ByteSrc :=
  let np : Int :=
    if whence = 0 then ofs
    else if whence = 1 then (b.pos : Int) + ofs
    else (b.data.length : Int) + ofs
  if np < 0 then (.error .valueError, b)
  else (.ok np.toNat, ⟨b.data, np.toNat⟩)

/-- `StreamRange`: a window over the shared source, anchored at `start`,
optionally ending at `stop` (Python's `self.end`; `None` = unbounded).
The wrapped file handle is threaded separately. -/
structure StreamRange where
  start : Nat
  stop : Option Nat
  deriving DecidableEq, Repr

/-- `StreamRange.tell`: window-relative position. -/
def StreamRange.tell (r : StreamRange) (b : ByteSrc) : Int :=
  (b.pos : Int) - r.start

/-- `StreamRange.seek`: translate a window-relative seek into the parent's
coordinates. -/
def StreamRange.seek (r : StreamRange) (b : ByteSrc) (ofs : Int)
    (whence : Nat) : Except Err Int × ByteSrc :=
  if whence = 0 then
    match b.seek ((r.start : Int) + ofs) 0 with
    | (.ok res, b') => (.ok ((res : Int) - r.start), b')
    | (.error e, b') => (.error e, b')
  else if whence = 1 then
    match b.seek ofs 1 with
    | (.ok res, b') => (.ok ((res : Int) - r.start), b')
    | (.error e, b') => (.error e, b')
  else
    match r.stop with
    | none =>
      match b.seek ofs 2 with
      | (.ok res, b') => (.ok ((res : Int) - r.start), b')
      | (.error e, b') => (.error e, b')
    | some e =>
      match b.seek ((e : Int) + ofs) 0 with
      | (.ok res, b') => (.ok ((res : Int) - r.start), b')
      | (.error err, b') => (.error err, b')

/-- `StreamRange.read`: clamp `n` to what remains of a bounded window
(`n = remaining` when `n` is `None` or exceeds `remaining`), then delegate;
an unbounded window delegates unchanged. -/
def StreamRange.read (r : StreamRange) (b : ByteSrc) (n : Option Int) :
    List Nat × ByteSrc :=
  match r.stop with
  | none => b.read n
  | some e =>
    let remaining : Int := (e : Int) - r.start - r.tell b
    let k : Int :=
      match n with
      | none => remaining
      | some m => if remaining < m then remaining else m
    b.read (some k)

/-- `FileReader` view metadata: `win = none` when it wraps the raw source
directly, `win = some r` when it wraps a `StreamRange` (as produced by
`subreader`); plus the latched `_eof` flag. The shared `ByteSrc` is passed
to every operation. -/
structure FileReader where
  win : Option StreamRange
  eofFlag : Bool
  deriving DecidableEq, Repr

/-- `self.fh.tell()`: the wrapped handle's position. -/
def FileReader.tell (f : FileReader) (b : ByteSrc) : Int :=
  match f.win with
  | none => (b.pos : Int)
  | some r => r.tell b

/-- `self.fh.read(n)`: delegate to the wrapped handle. -/
def FileReader.rawRead (f : FileReader) (b : ByteSrc) (n : Option Int) :
    List Nat × ByteSrc :=
  match f.win with
  | none => b.read n
  | some r => r.read b n

/-- `self.fh.seek(...)`: delegate to the wrapped handle. -/
def FileReader.rawSeek (f : FileReader) (b : ByteSrc) (ofs : Int)
    (whence : Nat) : Except Err Int × ByteSrc :=
  match f.win with
  | none =>
    match b.seek ofs whence with
    | (.ok res, b') => (.ok (res : Int), b')
    | (.error e, b') => (.error e, b')
  | some r => r.seek b ofs whence

/-- `FileReader.eof`. -/
def FileReader.eof (f : FileReader) : Bool := f.eofFlag

/-- `FileReader.seek`: clears the `_eof` flag (before the delegated seek,
so it is cleared even when the seek itself fails), then repositions. -/
def FileReader.seek (f : FileReader) (b : ByteSrc) (ofs : Int)
    (whence : Nat) : Except Err Int × FileReader × ByteSrc :=
  let (res, b') := f.rawSeek b ofs whence
  (res, ⟨f.win, false⟩, b')

/-- `FileReader.size`: `os.fstat(fileno).st_size` of the underlying file. -/
def FileReader.size (b : ByteSrc) : Nat := b.data.length

/-- `FileReader.subreader(n)`: wrap the shared handle in a new
`StreamRange` starting at the handle's current position (used in the
decoder only on a `FileReader` that wraps the raw source directly). -/
def FileReader.subreader (b : ByteSrc) (n : Option Nat) : FileReader :=
  ⟨some ⟨b.pos, n.map (fun k => b.pos + k)⟩, false⟩

/-- `FileReader.read(n, throw)`, translated branch by branch:
in EOF state return `None` (or raise); after a read that wanted data but
got none, set `_eof` (and raise only when `throw`); after a short read,
rewind the handle by the number of bytes obtained, set `_eof` (and raise
only when `throw`); otherwise return the data. Note the default
`throw=False` path *returns* partial data instead of raising. -/
def FileReader.read (f : FileReader) (b : ByteSrc) (n : Option Int)
    (thr : Bool) : Except Err (Option (List Nat)) × FileReader × ByteSrc :=
  if f.eofFlag then
    if thr then (.error .endOfStream, f, b) else (.ok none, f, b)
  else
    let (data, b1) := f.rawRead b n
    if (match n with | none => true | some k => decide (0 < k))
        && data.isEmpty then
      if thr then (.error .endOfStream, ⟨f.win, true⟩, b1)
      else (.ok (some data), ⟨f.win, true⟩, b1)
    else if (match n with
             | none => false
             | some k => decide (k ≠ 0 ∧ (data.length : Int) < k)) then
      match f.rawSeek b1 (f.tell b1 - data.length) 0 with
      | (.error e, b2) => (.error e, f, b2)
      | (.ok _, b2) =>
        if thr then (.error .endOfStream, ⟨f.win, true⟩, b2)
        else (.ok (some data), ⟨f.win, true⟩, b2)
    else (.ok (some data), f, b1)

/-- `DataReader`: the in-memory reader; owns its buffer outright. -/
structure DataReader where
  data : List Nat
  pos : Nat
  eofFlag : Bool
  deriving DecidableEq, Repr

/-- `DataReader.tell`. -/
def DataReader.tell (d : DataReader) : Nat := d.pos

/-- `DataReader.seek`: clears `_eof` first (so it stays cleared even when
the computed position is negative and `ValueError` is raised), computes the
target per `whence` (an unknown `whence` leaves `pos` as given, as the
source's `match` does), and repositions. -/
def DataReader.seek (d : DataReader) (ofs : Int) (whence : Nat) :
    Except Err Int × DataReader :=
  let d0 : DataReader := ⟨d.data, d.pos, false⟩
  let p : Int :=
    if whence = 0 then ofs
    else if whence = 1 then ofs + d.pos
    else if whence = 2 then ofs + d.data.length
    else ofs
  if p < 0 then (.error .valueError, d0)
  else (.ok p, ⟨d.data, p.toNat, false⟩)

/-- `DataReader.eof`: note that this reports `pos == len(data)`, not the
latched `_eof` flag. -/
def DataReader.eof (d : DataReader) : Bool := d.pos = d.data.length

/-- `DataReader.readbyte`. -/
def DataReader.readbyte (d : DataReader) : Except Err Nat × DataReader :=
  if d.eofFlag then (.error .endOfStream, d)
  else if d.data.length ≤ d.pos then
    (.error .endOfStream, ⟨d.data, d.pos, true⟩)
  else (.ok (d.data.getD d.pos 0), ⟨d.data, d.pos + 1, false⟩)

/-- `DataReader.read(n)`: raise in EOF state; raise (setting `_eof`) when
more is requested than remains; otherwise consume and return the slice
from the old to the new position. -/
def DataReader.read (d : DataReader) (n : Option Int) :
    Except Err (List Nat) × DataReader :=
  if d.eofFlag then (.error .endOfStream, d)
  else
    let k : Int :=
      match n with
      | none => (d.data.length : Int) - d.pos
      | some m => m
    if (d.data.length : Int) < (d.pos : Int) + k then
      (.error .endOfStream, ⟨d.data, d.pos, true⟩)
    else
      (.ok ((d.data.drop d.pos).take k.toNat),
        ⟨d.data, ((d.pos : Int) + k).toNat, false⟩)

/-- `DataReader.subreader(n)`: a fresh `DataReader` over a *copy* of the
slice `data[pos:]` or `data[pos:pos+n]`; returns the child together with
the (untouched) parent. -/
def DataReader.subreader (d : DataReader) (n : Option Nat) :
    DataReader × DataReader :=
  (⟨(match n with
     | none => d.data.drop d.pos
     | some k => (d.data.drop d.pos).take k), 0, false⟩, d)

/-! ### Fixed-width integer helpers (`BaseReader.read16le` … `read128be`)

`struct.unpack` of a fixed little- or big-endian format over an exact-length
buffer: `le`/`be` fold a byte list into a value, and each helper performs
one `read(n)` of the combined width and splits the buffer into the
unpacked fields exactly as the format string does (the single-byte `B`
field of a 3-byte format is the corresponding 1-byte slice). -/

/-- Value of a little-endian byte list (first byte least significant). -/
def le : List Nat → Nat
  | [] => 0
  | b :: bs => b + 256 * le bs

/-- Value of a big-endian byte list (first byte most significant). -/
def be (bs : List Nat) : Nat := bs.foldl (fun a b => 256 * a + b) 0

/-- `struct.unpack`'s length discipline on the result of a
`DataReader.read(k)`: a buffer of the wrong length is `struct.error`. -/
def DataReader.readU (d : DataReader) (k : Nat) :
    Except Err (List Nat) × DataReader :=
  match d.read (some k) with
  | (.ok bs, d') =>
    (if bs.length = k then .ok bs else .error .structError, d')
  | (.error e, d') => (.error e, d')

/-- `read16le`: `struct.unpack("<H", self.read(2))`. -/
def DataReader.read16le (d : DataReader) : Except Err Nat × DataReader :=
  match d.readU 2 with
  | (.ok bs, d') => (.ok (le bs), d')
  | (.error e, d') => (.error e, d')

/-- `reads16le`: `struct.unpack("<h", self.read(2))` (signed). -/
def DataReader.reads16le (d : DataReader) : Except Err Int × DataReader :=
  match d.readU 2 with
  | (.ok bs, d') =>
    (.ok (if le bs < 32768 then (le bs : Int) else (le bs : Int) - 65536), d')
  | (.error e, d') => (.error e, d')

/-- `read24le`: `l, h = struct.unpack("<HB", self.read(3)); (h<<16) + l`. -/
def DataReader.read24le (d : DataReader) : Except Err Nat × DataReader :=
  match d.readU 3 with
  | (.ok bs, d') => (.ok (le (bs.drop 2) * 65536 + le (bs.take 2)), d')
  | (.error e, d') => (.error e, d')

/-- `read32le`: `struct.unpack("<L", self.read(4))`. -/
def DataReader.read32le (d : DataReader) : Except Err Nat × DataReader :=
  match d.readU 4 with
  | (.ok bs, d') => (.ok (le bs), d')
  | (.error e, d') => (.error e, d')

/-- `read48le`: `l, h = struct.unpack("<LH", self.read(6)); (h<<32) + l`. -/
def DataReader.read48le (d : DataReader) : Except Err Nat × DataReader :=
  match d.readU 6 with
  | (.ok bs, d') =>
    (.ok (le (bs.drop 4) * 4294967296 + le (bs.take 4)), d')
  | (.error e, d') => (.error e, d')

/-- `read64le`: `struct.unpack("<Q", self.read(8))`. -/
def DataReader.read64le (d : DataReader) : Except Err Nat × DataReader :=
  match d.readU 8 with
  | (.ok bs, d') => (.ok (le bs), d')
  | (.error e, d') => (.error e, d')

/-- `read96le`: `l, h = struct.unpack("<QL", self.read(12)); (h<<64) + l`. -/
def DataReader.read96le (d : DataReader) : Except Err Nat × DataReader :=
  match d.readU 12 with
  | (.ok bs, d') =>
    (.ok (le (bs.drop 8) * 18446744073709551616 + le (bs.take 8)), d')
  | (.error e, d') => (.error e, d')

/-- `read128le`: `l, h = struct.unpack("<QQ", self.read(16)); (h<<64) + l`. -/
def DataReader.read128le (d : DataReader) : Except Err Nat × DataReader :=
  match d.readU 16 with
  | (.ok bs, d') =>
    (.ok (le (bs.drop 8) * 18446744073709551616 + le (bs.take 8)), d')
  | (.error e, d') => (.error e, d')

/-- `read16be`: `struct.unpack(">H", self.read(2))`. -/
def DataReader.read16be (d : DataReader) : Except Err Nat × DataReader :=
  match d.readU 2 with
  | (.ok bs, d') => (.ok (be bs), d')
  | (.error e, d') => (.error e, d')

/-- `read24be`: `h, l = struct.unpack(">BH", self.read(3)); (h<<16) + l`. -/
def DataReader.read24be (d : DataReader) : Except Err Nat × DataReader :=
  match d.readU 3 with
  | (.ok bs, d') => (.ok (be (bs.take 1) * 65536 + be (bs.drop 1)), d')
  | (.error e, d') => (.error e, d')

/-- `read32be`: `struct.unpack(">L", self.read(4))`. -/
def DataReader.read32be (d : DataReader) : Except Err Nat × DataReader :=
  match d.readU 4 with
  | (.ok bs, d') => (.ok (be bs), d')
  | (.error e, d') => (.error e, d')

/-- `read48be`: `h, l = struct.unpack(">HL", self.read(6)); (h<<32) + l`. -/
def DataReader.read48be (d : DataReader) : Except Err Nat × DataReader :=
  match d.readU 6 with
  | (.ok bs, d') =>
    (.ok (be (bs.take 2) * 4294967296 + be (bs.drop 2)), d')
  | (.error e, d') => (.error e, d')

/-- `read64be`: `struct.unpack(">Q", self.read(8))`. -/
def DataReader.read64be (d : DataReader) : Except Err Nat × DataReader :=
  match d.readU 8 with
  | (.ok bs, d') => (.ok (be bs), d')
  | (.error e, d') => (.error e, d')

/-- `read96be`: `h, l = struct.unpack(">LQ", self.read(12)); (h<<64) + l`. -/
def DataReader.read96be (d : DataReader) : Except Err Nat × DataReader :=
  match d.readU 12 with
  | (.ok bs, d') =>
    (.ok (be (bs.take 4) * 18446744073709551616 + be (bs.drop 4)), d')
  | (.error e, d') => (.error e, d')

/-- `read128be`: `h, l = struct.unpack(">QQ", self.read(16)); (h<<64) + l`. -/
def DataReader.read128be (d : DataReader) : Except Err Nat × DataReader :=
  match d.readU 16 with
  | (.ok bs, d') =>
    (.ok (be (bs.take 8) * 18446744073709551616 + be (bs.drop 8)), d')
  | (.error e, d') => (.error e, d')

/-- Canonical little-endian encoding of a value into `k` bytes (the
specification-side inverse of the `read*le` helpers). -/
def encLE : Nat → Nat → List Nat
  | 0, _ => []
  | k + 1, v => v % 256 :: encLE k (v / 256)

/-- Canonical big-endian encoding of a value into `k` bytes. -/
def encBE (k v : Nat) : List Nat := (encLE k v).reverse

/-! `struct.unpack` plumbing on `FileReader` (used by the `.bsuf`
container decoder, which runs on a `FileReader` over the opened file):
`FileReader.read` with the default `throw=False` never raises, so the
length discipline of `struct.unpack` is what turns a short read into an
error (`TypeError` on `None`, `struct.error` on a wrong-length buffer). -/

/-- `struct.unpack`'s length discipline over `FileReader.read(k)`. -/
def FileReader.readU (f : FileReader) (b : ByteSrc) (k : Nat) :
    Except Err (List Nat) × FileReader × ByteSrc :=
  match f.read b (some k) false with
  | (.error e, f', b') => (.error e, f', b')
  | (.ok none, f', b') => (.error .typeError, f', b')
  | (.ok (some bs), f', b') =>
    (if bs.length = k then .ok bs else .error .structError, f', b')

/-- `read16le` on a `FileReader`. -/
def FileReader.read16le (f : FileReader) (b : ByteSrc) :
    Except Err Nat × FileReader × ByteSrc :=
  match f.readU b 2 with
  | (.ok bs, f', b') => (.ok (le bs), f', b')
  | (.error e, f', b') => (.error e, f', b')

/-- `read32le` on a `FileReader`. -/
def FileReader.read32le (f : FileReader) (b : ByteSrc) :
    Except Err Nat × FileReader × ByteSrc :=
  match f.readU b 4 with
  | (.ok bs, f', b') => (.ok (le bs), f', b')
  | (.error e, f', b') => (.error e, f', b')

/-- `read64le` on a `FileReader`. -/
def FileReader.read64le (f : FileReader) (b : ByteSrc) :
    Except Err Nat × FileReader × ByteSrc :=
  match f.readU b 8 with
  | (.ok bs, f', b') => (.ok (le bs), f', b')
  | (.error e, f', b') => (.error e, f', b')

/-! ### The `.bsuf` container decoder (`dmpbsuf.py`)

`main` opens each input file and wraps it as a `FileReader`, so the
container decoder below runs on a `FileReader` (window `none`) over the
file's bytes, with the handle state threaded explicitly. -/

/-- `FirmwareType3.__init__`: the firmware-header sub-structure
(u32 zero, u16 checksum, u16 zero2, u32 imagesize, 2 signed 16-bit
version values, 128 raw bytes). Decoded through the shared `BaseReader`
helper methods; embedded here over a `DataReader`. -/
structure FirmwareType3 where
  zero : Nat
  checksum : Nat
  zero2 : Nat
  imagesize : Nat
  version : Int × Int
  data : List Nat
  deriving DecidableEq, Repr

/-- The field-by-field decode performed by `FirmwareType3.__init__`. -/
def FirmwareType3.decode (d : DataReader) :
    Except Err FirmwareType3 × DataReader :=
  match d.read32le with
  | (.error e, d') => (.error e, d')
  | (.ok z, d1) =>
  match d1.read16le with
  | (.error e, d') => (.error e, d')
  | (.ok ck, d2) =>
  match d2.read16le with
  | (.error e, d') => (.error e, d')
  | (.ok z2, d3) =>
  match d3.read32le with
  | (.error e, d') => (.error e, d')
  | (.ok isz, d4) =>
  match d4.reads16le with
  | (.error e, d') => (.error e, d')
  | (.ok v1, d5) =>
  match d5.reads16le with
  | (.error e, d') => (.error e, d')
  | (.ok v2, d6) =>
  match d6.read (some 128) with
  | (.error e, d') => (.error e, d')
  | (.ok bs, d7) => (.ok ⟨z, ck, z2, isz, (v1, v2), bs⟩, d7)

/-- `BsufEntry`: one entry of a `.bsuf` file — declared payload size,
type tag, container offset of the payload, the payload sub-view (sharing
the container's file handle), and the unverified per-entry checksum. -/
structure BsufEntry where
  size : Nat
  type : Nat
  ofs : Int
  entfh : FileReader
  checksum : Nat
  deriving DecidableEq, Repr

/-- `BsufEntry.__init__`: read u32 size and u16 type, record the current
offset, carve a `subreader` of exactly `size` bytes, skip the payload
(`fh.skip(size)` = `seek(size, SEEK_CUR)`), then read the u16 checksum. -/
def BsufEntry.decode (fh : FileReader) (b : ByteSrc) :
    Except Err BsufEntry × FileReader × ByteSrc :=
  match fh.read32le b with
  | (.error e, f', b') => (.error e, f', b')
  | (.ok size, f1, b1) =>
  match f1.read16le b1 with
  | (.error e, f', b') => (.error e, f', b')
  | (.ok ty, f2, b2) =>
  let ofs := f2.tell b2
  let entfh := FileReader.subreader b2 (some size)
  match f2.seek b2 (size : Int) 1 with
  | (.error e, f', b') => (.error e, f', b')
  | (.ok _, f3, b3) =>
  match f3.read16le b3 with
  | (.error e, f', b') => (.error e, f', b')
  | (.ok ck, f4, b4) => (.ok ⟨size, ty, ofs, entfh, ck⟩, f4, b4)

/-- The entry loop of `BsufFile.__init__`:
`while fh.tell() < filesize + 0x10: entries.append(BsufEntry(fh))`,
with a fuel parameter bounding the number of iterations. -/
def BsufFile.decodeEntries (fuel bound : Nat) (fh : FileReader)
    (b : ByteSrc) : Except Err (List BsufEntry) × FileReader × ByteSrc :=
  match fuel with
  | 0 =>
    if fh.tell b < (bound : Int) then (.error .fuelOut, fh, b)
    else (.ok [], fh, b)
  | fuel + 1 =>
    if fh.tell b < (bound : Int) then
      match BsufEntry.decode fh b with
      | (.error e, f', b') => (.error e, f', b')
      | (.ok ent, f1, b1) =>
        match BsufFile.decodeEntries fuel bound f1 b1 with
        | (.error e, f', b') => (.error e, f', b')
        | (.ok es, f', b') => (.ok (ent :: es), f', b')
    else (.ok [], fh, b)

/-- The `.bsuf` magic constant. -/
def bsufMagic : Nat := 0x663919145fab6655

/-- The decoded container: version, entries in file order, and the
unverified trailing file checksum. -/
structure BsufFile where
  version : Nat
  entries : List BsufEntry
  filechecksum : Nat
  deriving DecidableEq, Repr

/-- `BsufFile.__init__` over the opened file's bytes: read and check the
u64 magic (`Exception` = `Err.invalidMagic` on mismatch), read u32 version
and u32 declared size, compare `filesize + 0x12` with the real file size
(a printed warning only — no state effect), run the entry loop up to
`filesize + 0x10`, then read the u16 file checksum. The fuel
`filesize + 0x11` exceeds any possible iteration count (each entry
consumes at least 8 bytes). -/
def BsufFile.decode (data : List Nat) :
    Except Err BsufFile × FileReader × ByteSrc :=
  let fh : FileReader := ⟨none, false⟩
  let b : ByteSrc := ⟨data, 0⟩
  match fh.read64le b with
  | (.error e, f', b') => (.error e, f', b')
  | (.ok magic, f1, b1) =>
  if magic ≠ bsufMagic then (.error .invalidMagic, f1, b1)
  else
  match f1.read32le b1 with
  | (.error e, f', b') => (.error e, f', b')
  | (.ok version, f2, b2) =>
  match f2.read32le b2 with
  | (.error e, f', b') => (.error e, f', b')
  | (.ok filesize, f3, b3) =>
  match BsufFile.decodeEntries (filesize + 0x11) (filesize + 0x10) f3 b3 with
  | (.error e, f', b') => (.error e, f', b')
  | (.ok es, f4, b4) =>
  match f4.read16le b4 with
  | (.error e, f', b') => (.error e, f', b')
  | (.ok ck, f5, b5) => (.ok ⟨version, es, ck⟩, f5, b5)

/-- What `BsufFile.enumentries` does for a type-0 entry: reset the entry's
payload view (`ent.entfh.seek(0)`) on the shared handle, then
`EntryType0.__init__` stores `fh.read()` — the whole remaining payload. -/
def EntryType0.run (ent : BsufEntry) (b : ByteSrc) :
    Except Err (Option (List Nat)) × FileReader × ByteSrc :=
  match ent.entfh.seek b 0 0 with
  | (.error e, f', b') => (.error e, f', b')
  | (.ok _, f1, b1) => f1.read b1 none false

/-- Zero-padded 3-digit index used in the extraction filename pattern. -/
def pad3 (n : Nat) : String :=
  if n < 10 then "00" ++ toString n
  else if n < 100 then "0" ++ toString n
  else toString n

/-- The filename search loop of `saveunique`: try
`{savedir}/{pfx}-{iii}.dat` for `i` in `0..99`, keeping the first name not
already present (when all 100 exist, the loop leaves `fn` at index 99). -/
def saveuniqueName (present : String → Bool) (savedir pfx : String) :
    String :=
  let names :=
    (List.range 100).map (fun i => savedir ++ "/" ++ pfx ++ "-" ++ pad3 i ++ ".dat")
  (names.find? (fun fn => !present fn)).getD
    (savedir ++ "/" ++ pfx ++ "-" ++ pad3 99 ++ ".dat")

/-- `saveunique(savedir, prefix, fh)` as written in the source: after the
filename loop the body executes `self.fh.seek(0)` — but `saveunique` is a
module-level function with no `self` in scope (its `fh` parameter is never
used), so every call raises `NameError` before any file is opened. -/
def saveunique (present : String → Bool) (savedir pfx : String)
    (fh : FileReader) : Except Err Unit :=
  let _fn := saveuniqueName present savedir pfx
  let _ := fh
  .error .nameError

/-- An arbitrary `DataReader` operation (used to state frame properties of
`DataReader.subreader`): any read, seek, or readbyte, reduced to its
effect on the reader's state. -/
inductive DROp where
  | rd : Option Int → DROp
  | sk : Int → Nat → DROp
  | rb : DROp

/-- The state transition of a `DataReader` operation (the post-state is
kept even when the operation raises, as in Python). -/
def DROp.apply (d : DataReader) : DROp → DataReader
  | .rd n => (d.read n).2
  | .sk p w => (d.seek p w).2
  | .rb => d.readbyte.2

/-! ### Concrete byte sequences used by the scenario claims -/

/-- The concrete container of the spec's §8 scenario: magic, version 1,
declared size 0x0A, one entry `{size=6, type=0, payload="abcdef",
checksum=0}`, file checksum 0. -/
def c6data : List Nat :=
  [0x55, 0x66, 0xab, 0x5f, 0x14, 0x19, 0x39, 0x66] ++
  [1, 0, 0, 0] ++ [0x0A, 0, 0, 0] ++
  [6, 0, 0, 0] ++ [0, 0] ++ [97, 98, 99, 100, 101, 102] ++ [0, 0] ++
  [0, 0]

/-- The concrete firmware-header bytes of the spec's §8 scenario:
zero=0, checksum=0x1234, zero2=0, imagesize=0x100, version=(1,2),
128 zero bytes. -/
def c8data : List Nat :=
  [0, 0, 0, 0] ++ [0x34, 0x12] ++ [0, 0] ++ [0, 1, 0, 0] ++
  [1, 0] ++ [2, 0] ++ List.replicate 128 0

/-! ### Theorems -/

/-- C1: evaluation of the code at the failing input. A `FileReader` over a
16-byte stream positioned at 1 (the situation of unit test `checkEof1b`),
asked for 16 bytes with the default `throw=False`, *returns* the 15
available bytes as an ordinary result — the handle is rewound and the EOF
flag set, but no `EndOfStream` is raised — so `read(n)` neither returns
exactly `n` bytes nor fails, contradicting the claim (and the reader's own
docstring and unit tests, which the claim matches). -/
theorem fileReader_c1_read_returns_partial_without_error :
    FileReader.read ⟨none, false⟩ ⟨List.range 16, 1⟩ (some 16) false =
      (.ok (some [1, 2, 3, 4, 5, 6, 7, 8, 9, 10, 11, 12, 13, 14, 15]),
        ⟨none, true⟩, ⟨List.range 16, 1⟩) := by
  rfl

/-- C2 counterexample: a bounded sub-view of the buffer-backed reader
(`DataReader.subreader`, named by the claim) with length 3 *raises*
`EndOfStream` on `read(5)` instead of returning the 3 remaining bytes,
refuting "read(n) with n greater than remaining … does not raise
EndOfStream" for that reader. -/
theorem dataReader_c2_cex_bounded_subreader_raises :
    (DataReader.read
        (DataReader.subreader ⟨[97, 98, 99, 100, 101, 102], 0, false⟩
          (some 3)).1 (some 5)).1 = .error .endOfStream := by
  rfl

/-- C3 counterexample: on the buffer-backed reader, `read(2)` over a
2-byte buffer succeeds (consuming exactly, not more than, what was
available) and leaves the latched flag `false`, yet `eof()` reports
`true`; and after a subsequent *successful* `seek(2)`, `eof()` still
reports `true` — refuting both "EOF flag is true iff the last read
attempted to consume more bytes than were available" and "every
successful seek clears the EOF flag" as statements about `eof()`. -/
theorem dataReader_c3_cex_eof_is_positional :
    (DataReader.read ⟨[0, 1], 0, false⟩ (some 2)).1 = .ok [0, 1] ∧
    ((DataReader.read ⟨[0, 1], 0, false⟩ (some 2)).2).eofFlag = false ∧
    DataReader.eof ((DataReader.read ⟨[0, 1], 0, false⟩ (some 2)).2) = true ∧
    (DataReader.seek ((DataReader.read ⟨[0, 1], 0, false⟩ (some 2)).2)
        2 0).1 = .ok 2 ∧
    DataReader.eof ((DataReader.seek
        ((DataReader.read ⟨[0, 1], 0, false⟩ (some 2)).2) 2 0).2) = true :=
  ⟨rfl, rfl, rfl, rfl, rfl⟩

/-- C6: the concrete container
`{magic, version=1, declared_size=0x0A} · {size=6, type=0,
payload="abcdef", checksum=0} · file_checksum=0` decodes successfully to
exactly one entry, of type 0, and running the type-0 entry decoder on its
payload view (exactly as `enumentries` does: `seek(0)` then `read()`)
yields `b"abcdef"`. -/
theorem bsuf_c6_concrete_container_decode :
    BsufFile.decode c6data =
      (.ok ⟨1, [⟨6, 0, 22, ⟨some ⟨22, some 28⟩, false⟩, 0⟩], 0⟩,
        ⟨none, false⟩, ⟨c6data, 32⟩) ∧
    (EntryType0.run ⟨6, 0, 22, ⟨some ⟨22, some 28⟩, false⟩, 0⟩
        ⟨c6data, 32⟩).1 = .ok (some [97, 98, 99, 100, 101, 102]) :=
  ⟨rfl, rfl⟩

/-- C8: decoding the firmware-header sub-structure from the concrete
144-byte sequence (zero=0, checksum=0x1234, zero2=0, imagesize=0x100,
version=(1,2), 128 zero bytes) yields `version = (1, 2)` and
`imagesize = 256`. -/
theorem firmware_c8_concrete_header_decode :
    (FirmwareType3.decode ⟨c8data, 0, false⟩).1 =
      .ok ⟨0, 0x1234, 0, 0x100, (1, 2), List.replicate 128 0⟩ := by
  rfl

/-- C9: evaluation of the code at the failing input. Every call to
`saveunique` — in particular both calls made when two type-13 entries are
saved in succession — raises `NameError` (the body references `self`,
which is undefined in this module-level function) before any output file
is opened, for every state of the target directory. -/
theorem saveunique_c9_always_raises_nameError :
    ∀ (present : String → Bool) (savedir pfx : String) (fh : FileReader),
      saveunique present savedir pfx fh = .error .nameError :=
  fun _ _ _ _ => rfl

/-- C10: `DataReader.subreader` leaves the parent exactly unchanged
(position and EOF flag included) and returns a child whose buffer is a
copy of the parent's slice, positioned at 0 with a clear EOF flag; and no
`DataReader` operation (read, seek, or readbyte) ever changes a reader's
underlying buffer — so the child is a snapshot: operations on either
reader cannot affect the other's position, EOF flag, or the bytes it
yields. -/
theorem dataReader_c10_subreader_independent :
    ∀ (dat : List Nat) (p : Nat) (e : Bool) (n : Option Nat),
    (DataReader.subreader ⟨dat, p, e⟩ n).2 = ⟨dat, p, e⟩ ∧
    (DataReader.subreader ⟨dat, p, e⟩ n).1 =
      ⟨(match n with
        | none => dat.drop p
        | some k => (dat.drop p).take k), 0, false⟩ ∧
    ∀ (d : DataReader) (op : DROp), (DROp.apply d op).data = d.data := by
  intro dat p e n
  refine ⟨rfl, rfl, ?_⟩
  intro d op
  cases op with
  | rd m =>
    simp only [DROp.apply, DataReader.read]
    split
    · rfl
    · split <;> rfl
  | sk q w =>
    simp only [DROp.apply, DataReader.seek]
    repeat' split
    all_goals rfl
  | rb =>
    simp only [DROp.apply, DataReader.readbyte]
    split
    · rfl
    · split <;> rfl

/-! ### Round-trip of the fixed-width integer helpers (C7) -/

theorem encLE_length (k v : Nat) : (encLE k v).length = k := by
  induction k generalizing v with
  | zero => rfl
  | succ k ih => simp [encLE, ih]

theorem le_encLE (k v : Nat) : le (encLE k v) = v % 256 ^ k := by
  induction k generalizing v with
  | zero => simp [encLE, le, Nat.mod_one]
  | succ k ih =>
    show v % 256 + 256 * le (encLE k (v / 256)) = v % 256 ^ (k + 1)
    rw [ih, pow_succ', Nat.mod_mul]

theorem encLE_split (m k v : Nat) :
    encLE (m + k) v = encLE m v ++ encLE k (v / 256 ^ m) := by
  induction m generalizing v with
  | zero => simp [encLE]
  | succ m ih =>
    have hadd : m + 1 + k = (m + k) + 1 := by omega
    rw [hadd]
    show v % 256 :: encLE (m + k) (v / 256) =
      (v % 256 :: encLE m (v / 256)) ++ encLE k (v / 256 ^ (m + 1))
    rw [List.cons_append, ih, Nat.div_div_eq_div_mul, ← pow_succ']

theorem be_reverse (l : List Nat) : be l.reverse = le l := by
  induction l with
  | nil => rfl
  | cons b t ih =>
    simp only [List.reverse_cons, be, List.foldl_append, List.foldl_cons,
      List.foldl_nil, le] at *
    omega

theorem encBE_length (k v : Nat) : (encBE k v).length = k := by
  simp [encBE, encLE_length]

theorem be_encBE (k v : Nat) : be (encBE k v) = v % 256 ^ k := by
  rw [encBE, be_reverse, le_encLE]

theorem encBE_split (m k v : Nat) :
    encBE (m + k) v = encBE k (v / 256 ^ m) ++ encBE m v := by
  rw [encBE, encLE_split, List.reverse_append, encBE, encBE]

theorem take_len_append {α : Type} (l₁ l₂ : List α) (k : Nat)
    (h : l₁.length = k) : (l₁ ++ l₂).take k = l₁ := by
  subst h; exact List.take_left l₁ l₂

theorem drop_len_append {α : Type} (l₁ l₂ : List α) (k : Nat)
    (h : l₁.length = k) : (l₁ ++ l₂).drop k = l₂ := by
  subst h; exact List.drop_left l₁ l₂

/-- Splitting a `(m+k)`-byte little-endian encoding at byte `m` and
recombining the two halves (as the `<..>`-format helpers do) recovers the
value. -/
theorem le_parts (m k v : Nat) (h : v < 256 ^ (m + k)) :
    le ((encLE (m + k) v).drop m) * 256 ^ m + le ((encLE (m + k) v).take m)
      = v := by
  rw [encLE_split m k v,
    take_len_append _ _ _ (encLE_length m v),
    drop_len_append _ _ _ (encLE_length m v), le_encLE, le_encLE]
  have h2 : v % 256 ^ (m + k) = v := Nat.mod_eq_of_lt h
  rw [pow_add, Nat.mod_mul] at h2
  rw [Nat.mul_comm (v / 256 ^ m % 256 ^ k) (256 ^ m)]
  omega

/-- Splitting a `(m+k)`-byte big-endian encoding at byte `k` and
recombining the two halves (as the `>..`-format helpers do) recovers the
value. -/
theorem be_parts (m k v : Nat) (h : v < 256 ^ (m + k)) :
    be ((encBE (m + k) v).take k) * 256 ^ m + be ((encBE (m + k) v).drop k)
      = v := by
  rw [encBE_split m k v,
    take_len_append _ _ _ (encBE_length k _),
    drop_len_append _ _ _ (encBE_length k _), be_encBE, be_encBE]
  have h2 : v % 256 ^ (m + k) = v := Nat.mod_eq_of_lt h
  rw [pow_add, Nat.mod_mul] at h2
  rw [Nat.mul_comm (v / 256 ^ m % 256 ^ k) (256 ^ m)]
  omega

/-- A fresh `DataReader` over a buffer of exactly `k` bytes answers the
`read(k)` + `struct.unpack` combination with the whole buffer. -/
theorem DataReader.readU_full (l : List Nat) (k : Nat) (h : l.length = k) :
    DataReader.readU ⟨l, 0, false⟩ k = (.ok l, ⟨l, k, false⟩) := by
  subst h
  simp [DataReader.readU, DataReader.read]

/-- C7: for every supported width (16/24/32/48/64/96/128 bits) and both
endiannesses, encoding any value `v < 2^w` into its `w`-bit byte sequence
and reading it back with the corresponding fixed-width helper returns
`v`. -/
theorem reader_c7_roundtrip (v : Nat) :
    (v < 2 ^ 16 → (DataReader.read16le ⟨encLE 2 v, 0, false⟩).1 = .ok v) ∧
    (v < 2 ^ 24 → (DataReader.read24le ⟨encLE 3 v, 0, false⟩).1 = .ok v) ∧
    (v < 2 ^ 32 → (DataReader.read32le ⟨encLE 4 v, 0, false⟩).1 = .ok v) ∧
    (v < 2 ^ 48 → (DataReader.read48le ⟨encLE 6 v, 0, false⟩).1 = .ok v) ∧
    (v < 2 ^ 64 → (DataReader.read64le ⟨encLE 8 v, 0, false⟩).1 = .ok v) ∧
    (v < 2 ^ 96 → (DataReader.read96le ⟨encLE 12 v, 0, false⟩).1 = .ok v) ∧
    (v < 2 ^ 128 → (DataReader.read128le ⟨encLE 16 v, 0, false⟩).1 = .ok v) ∧
    (v < 2 ^ 16 → (DataReader.read16be ⟨encBE 2 v, 0, false⟩).1 = .ok v) ∧
    (v < 2 ^ 24 → (DataReader.read24be ⟨encBE 3 v, 0, false⟩).1 = .ok v) ∧
    (v < 2 ^ 32 → (DataReader.read32be ⟨encBE 4 v, 0, false⟩).1 = .ok v) ∧
    (v < 2 ^ 48 → (DataReader.read48be ⟨encBE 6 v, 0, false⟩).1 = .ok v) ∧
    (v < 2 ^ 64 → (DataReader.read64be ⟨encBE 8 v, 0, false⟩).1 = .ok v) ∧
    (v < 2 ^ 96 → (DataReader.read96be ⟨encBE 12 v, 0, false⟩).1 = .ok v) ∧
    (v < 2 ^ 128 → (DataReader.read128be ⟨encBE 16 v, 0, false⟩).1 = .ok v)
    := by
  refine ⟨?_, ?_, ?_, ?_, ?_, ?_, ?_, ?_, ?_, ?_, ?_, ?_, ?_, ?_⟩
  · intro h
    have hU := DataReader.readU_full (encLE 2 v) 2 (encLE_length 2 v)
    have hlt : v < 256 ^ 2 := by norm_num at h ⊢; omega
    simp only [DataReader.read16le, hU, le_encLE, Nat.mod_eq_of_lt hlt]
  · intro h
    have hU := DataReader.readU_full (encLE 3 v) 3 (encLE_length 3 v)
    have hlt : v < 256 ^ 3 := by norm_num at h ⊢; omega
    have hp : le ((encLE 3 v).drop 2) * 65536 + le ((encLE 3 v).take 2) = v :=
      le_parts 2 1 v hlt
    simp only [DataReader.read24le, hU, hp]
  · intro h
    have hU := DataReader.readU_full (encLE 4 v) 4 (encLE_length 4 v)
    have hlt : v < 256 ^ 4 := by norm_num at h ⊢; omega
    simp only [DataReader.read32le, hU, le_encLE, Nat.mod_eq_of_lt hlt]
  · intro h
    have hU := DataReader.readU_full (encLE 6 v) 6 (encLE_length 6 v)
    have hlt : v < 256 ^ 6 := by norm_num at h ⊢; omega
    have hp : le ((encLE 6 v).drop 4) * 4294967296 +
        le ((encLE 6 v).take 4) = v := le_parts 4 2 v hlt
    simp only [DataReader.read48le, hU, hp]
  · intro h
    have hU := DataReader.readU_full (encLE 8 v) 8 (encLE_length 8 v)
    have hlt : v < 256 ^ 8 := by norm_num at h ⊢; omega
    simp only [DataReader.read64le, hU, le_encLE, Nat.mod_eq_of_lt hlt]
  · intro h
    have hU := DataReader.readU_full (encLE 12 v) 12 (encLE_length 12 v)
    have hlt : v < 256 ^ 12 := by norm_num at h ⊢; omega
    have hp : le ((encLE 12 v).drop 8) * 18446744073709551616 +
        le ((encLE 12 v).take 8) = v := le_parts 8 4 v hlt
    simp only [DataReader.read96le, hU, hp]
  · intro h
    have hU := DataReader.readU_full (encLE 16 v) 16 (encLE_length 16 v)
    have hlt : v < 256 ^ 16 := by norm_num at h ⊢; omega
    have hp : le ((encLE 16 v).drop 8) * 18446744073709551616 +
        le ((encLE 16 v).take 8) = v := le_parts 8 8 v hlt
    simp only [DataReader.read128le, hU, hp]
  · intro h
    have hU := DataReader.readU_full (encBE 2 v) 2 (encBE_length 2 v)
    have hlt : v < 256 ^ 2 := by norm_num at h ⊢; omega
    simp only [DataReader.read16be, hU, be_encBE, Nat.mod_eq_of_lt hlt]
  · intro h
    have hU := DataReader.readU_full (encBE 3 v) 3 (encBE_length 3 v)
    have hlt : v < 256 ^ 3 := by norm_num at h ⊢; omega
    have hp : be ((encBE 3 v).take 1) * 65536 + be ((encBE 3 v).drop 1) = v :=
      be_parts 2 1 v hlt
    simp only [DataReader.read24be, hU, hp]
  · intro h
    have hU := DataReader.readU_full (encBE 4 v) 4 (encBE_length 4 v)
    have hlt : v < 256 ^ 4 := by norm_num at h ⊢; omega
    simp only [DataReader.read32be, hU, be_encBE, Nat.mod_eq_of_lt hlt]
  · intro h
    have hU := DataReader.readU_full (encBE 6 v) 6 (encBE_length 6 v)
    have hlt : v < 256 ^ 6 := by norm_num at h ⊢; omega
    have hp : be ((encBE 6 v).take 2) * 4294967296 +
        be ((encBE 6 v).drop 2) = v := be_parts 4 2 v hlt
    simp only [DataReader.read48be, hU, hp]
  · intro h
    have hU := DataReader.readU_full (encBE 8 v) 8 (encBE_length 8 v)
    have hlt : v < 256 ^ 8 := by norm_num at h ⊢; omega
    simp only [DataReader.read64be, hU, be_encBE, Nat.mod_eq_of_lt hlt]
  · intro h
    have hU := DataReader.readU_full (encBE 12 v) 12 (encBE_length 12 v)
    have hlt : v < 256 ^ 12 := by norm_num at h ⊢; omega
    have hp : be ((encBE 12 v).take 4) * 18446744073709551616 +
        be ((encBE 12 v).drop 4) = v := be_parts 8 4 v hlt
    simp only [DataReader.read96be, hU, hp]
  · intro h
    have hU := DataReader.readU_full (encBE 16 v) 16 (encBE_length 16 v)
    have hlt : v < 256 ^ 16 := by norm_num at h ⊢; omega
    have hp : be ((encBE 16 v).take 8) * 18446744073709551616 +
        be ((encBE 16 v).drop 8) = v := be_parts 8 8 v hlt
    simp only [DataReader.read128be, hU, hp]

/-- C7 witness: the round-trip theorem applied at the concrete value 1,
for every width and endianness. -/
theorem reader_c7_roundtrip_witness :
    (DataReader.read16le ⟨encLE 2 1, 0, false⟩).1 = .ok 1 ∧
    (DataReader.read24le ⟨encLE 3 1, 0, false⟩).1 = .ok 1 ∧
    (DataReader.read32le ⟨encLE 4 1, 0, false⟩).1 = .ok 1 ∧
    (DataReader.read48le ⟨encLE 6 1, 0, false⟩).1 = .ok 1 ∧
    (DataReader.read64le ⟨encLE 8 1, 0, false⟩).1 = .ok 1 ∧
    (DataReader.read96le ⟨encLE 12 1, 0, false⟩).1 = .ok 1 ∧
    (DataReader.read128le ⟨encLE 16 1, 0, false⟩).1 = .ok 1 ∧
    (DataReader.read16be ⟨encBE 2 1, 0, false⟩).1 = .ok 1 ∧
    (DataReader.read24be ⟨encBE 3 1, 0, false⟩).1 = .ok 1 ∧
    (DataReader.read32be ⟨encBE 4 1, 0, false⟩).1 = .ok 1 ∧
    (DataReader.read48be ⟨encBE 6 1, 0, false⟩).1 = .ok 1 ∧
    (DataReader.read64be ⟨encBE 8 1, 0, false⟩).1 = .ok 1 ∧
    (DataReader.read96be ⟨encBE 12 1, 0, false⟩).1 = .ok 1 ∧
    (DataReader.read128be ⟨encBE 16 1, 0, false⟩).1 = .ok 1 := by
  have h := reader_c7_roundtrip 1
  exact ⟨h.1 (by norm_num), h.2.1 (by norm_num), h.2.2.1 (by norm_num),
    h.2.2.2.1 (by norm_num), h.2.2.2.2.1 (by norm_num),
    h.2.2.2.2.2.1 (by norm_num), h.2.2.2.2.2.2.1 (by norm_num),
    h.2.2.2.2.2.2.2.1 (by norm_num), h.2.2.2.2.2.2.2.2.1 (by norm_num),
    h.2.2.2.2.2.2.2.2.2.1 (by norm_num),
    h.2.2.2.2.2.2.2.2.2.2.1 (by norm_num),
    h.2.2.2.2.2.2.2.2.2.2.2.1 (by norm_num),
    h.2.2.2.2.2.2.2.2.2.2.2.2.1 (by norm_num),
    h.2.2.2.2.2.2.2.2.2.2.2.2.2 (by norm_num)⟩

/-- C2 (amended): a file-backed bounded sub-view (a `FileReader` wrapping
a `StreamRange` with start `s` and fixed length `L`), positioned at any
view-local `p ≤ L` over in-range data, answers `read(n)` for any
`n > L − p` by clamping: it returns exactly the remaining `L − p` bytes of
the window — a suffix of the parent range `[s, s+L)`, never bytes outside
it — without raising `EndOfStream` (the view is left rewound to `p` with
its EOF flag set). -/
theorem streamRange_c2_clamped_read (data : List Nat) (s L p n : Nat)
    (hp : p ≤ L) (hL : s + L ≤ data.length) (hn : L - p < n) :
    FileReader.read ⟨some ⟨s, some (s + L)⟩, false⟩ ⟨data, s + p⟩
        (some (n : Int)) false =
      (.ok (some (((data.drop s).take L).drop p)),
        ⟨some ⟨s, some (s + L)⟩, true⟩, ⟨data, s + p⟩) := by
  have hbytes : ((data.drop s).take L).drop p
      = (data.drop (s + p)).take (L - p) := by
    rw [List.drop_take, List.drop_drop]
  have hraw : FileReader.rawRead ⟨some ⟨s, some (s + L)⟩, false⟩
      ⟨data, s + p⟩ (some (n : Int)) =
      ((data.drop (s + p)).take (L - p), ⟨data, s + L⟩) := by
    simp only [FileReader.rawRead, StreamRange.read, StreamRange.tell,
      ByteSrc.read]
    rw [if_pos (by push_cast; omega :
      ((s + L : Nat) : Int) - (s : Nat) - (((s + p : Nat) : Int) - (s : Nat)) < (n : Int))]
    rw [if_neg (by push_cast; omega :
      ¬ ((s + L : Nat) : Int) - (s : Nat) - (((s + p : Nat) : Int) - (s : Nat)) < 0)]
    have hmin : ((((s + L : Nat) : Int) - (s : Nat) - (((s + p : Nat) : Int) - (s : Nat))).toNat)
        ⊓ (data.length - (s + p)) = L - p := by omega
    rw [hmin]
    have hpos : s + p + (L - p) = s + L := by omega
    rw [hpos]
  have hlen : ((data.drop (s + p)).take (L - p)).length = L - p := by
    simp [List.length_take, List.length_drop]
    omega
  rw [hbytes]
  generalize hbs : (data.drop (s + p)).take (L - p) = bs at hraw hlen ⊢
  simp only [FileReader.read, hraw]
  have h0 : (decide ((0 : Int) < (n : Int))) = true := by simp; omega
  rw [h0]
  by_cases hz : L - p = 0
  · have hnil : bs = [] := List.length_eq_zero.mp (by omega)
    subst hnil
    simp only [List.isEmpty_nil, Bool.true_and, if_true]
    have hsl : s + L = s + p := by omega
    rw [hsl]
    simp
  · have hbe : bs.isEmpty = false := by
      cases bs with
      | nil => simp at hlen; omega
      | cons a t => rfl
    have hc2 : (decide ((n : Int) ≠ 0 ∧ ((bs.length : Int)) < (n : Int)))
        = true := by
      rw [hlen]; simp only [decide_eq_true_eq]; omega
    have hseek : FileReader.rawSeek ⟨some ⟨s, some (s + L)⟩, false⟩
        ⟨data, s + L⟩
        (FileReader.tell ⟨some ⟨s, some (s + L)⟩, false⟩ ⟨data, s + L⟩ -
          (bs.length : Int)) 0 = (.ok (p : Int), ⟨data, s + p⟩) := by
      rw [hlen]
      simp [FileReader.rawSeek, FileReader.tell, StreamRange.seek,
        StreamRange.tell, ByteSrc.seek]
      rw [if_neg (show ¬ ((s : Int) + ((L : Int) - ((L - p : Nat) : Int)) < 0)
        by omega)]
      have hX : ((s : Int) + ((L : Int) - ((L - p : Nat) : Int))).toNat
          = s + p := by omega
      rw [hX]
      have h2 : ((s + p : Nat) : Int) - (s : Int) = (p : Int) := by
        omega
      simp only [h2]
    simp only [hbe, hc2, hseek, Bool.true_and]
    simp

/-- C2 witness: the clamping theorem applied to a bounded view of length 4
at start 2 over a 10-byte buffer, positioned at view-local 1 and asked for
9 bytes: it returns exactly the 3 remaining bytes. -/
theorem streamRange_c2_clamped_read_witness :
    (1 ≤ 4 ∧ 2 + 4 ≤ (List.range 10).length ∧ 4 - 1 < 9) ∧
    FileReader.read ⟨some ⟨2, some (2 + 4)⟩, false⟩ ⟨List.range 10, 2 + 1⟩
        (some ((9 : Nat) : Int)) false =
      (.ok (some ((((List.range 10).drop 2).take 4).drop 1)),
        ⟨some ⟨2, some (2 + 4)⟩, true⟩, ⟨List.range 10, 2 + 1⟩) :=
  ⟨⟨by norm_num, by norm_num, by norm_num⟩,
    streamRange_c2_clamped_read (List.range 10) 2 4 1 9 (by norm_num)
      (by norm_num) (by norm_num)⟩

/-! ### EOF-flag semantics (C3) -/

theorem isEmpty_decide (l : List Nat) : l.isEmpty = decide (l.length = 0) := by
  cases l <;> simp

/-- An absolute seek of the raw source to a nonnegative target always
succeeds and lands exactly there. -/
theorem rawSeek_base (e : Bool) (b : ByteSrc) (t : Int) (ht : 0 ≤ t) :
    FileReader.rawSeek ⟨none, e⟩ b t 0 =
      (.ok ((t.toNat : Nat) : Int), ⟨b.data, t.toNat⟩) := by
  simp [FileReader.rawSeek, ByteSrc.seek, if_neg (not_lt.mpr ht)]

/-- `FileReader.read(k)` on the raw source sets the latched EOF flag
exactly when the flag was already set or the request exceeded the bytes
available at the current position. -/
theorem fileReader_read_eofFlag (flag : Bool) (b : ByteSrc) (k : Int)
    (thr : Bool) :
    ((FileReader.read ⟨none, flag⟩ b (some k) thr).2.1).eofFlag =
      (flag || decide (0 < k ∧ (b.data.length : Int) - (b.pos : Int) < k)) := by
  cases flag with
  | true => cases thr <;> rfl
  | false =>
    simp only [FileReader.read, FileReader.rawRead, ByteSrc.read,
      FileReader.tell, isEmpty_decide, Bool.false_or]
    by_cases hkneg : k < 0
    · simp only [if_pos hkneg]
      generalize hdat :
        (b.data.drop b.pos).take (b.data.length - b.pos) = dat
      have hlen : dat.length =
          min (b.data.length - b.pos) (b.data.length - b.pos) := by
        rw [← hdat]; simp
      rw [show (decide (0 < k)) = false from decide_eq_false (by omega)]
      rw [show (decide (k ≠ 0 ∧ (dat.length : Int) < k)) = false from
        decide_eq_false (by omega)]
      simp only [Bool.false_and, Bool.false_eq_true, if_false]
      rw [decide_eq_false
        (show ¬(0 < k ∧ (b.data.length : Int) - (b.pos : Int) < k) from
          by omega)]
    · simp only [if_neg hkneg]
      generalize hdat :
        (b.data.drop b.pos).take (k.toNat ⊓ (b.data.length - b.pos)) = dat
      have hlen : dat.length =
          min (k.toNat ⊓ (b.data.length - b.pos))
            (b.data.length - b.pos) := by
        rw [← hdat]; simp
      by_cases hk0 : k = 0
      · subst hk0
        rw [show (decide ((0:Int) < 0)) = false from rfl]
        rw [show (decide ((0:Int) ≠ 0 ∧ (dat.length : Int) < 0)) = false from
          decide_eq_false (by omega)]
        simp only [Bool.false_and, Bool.false_eq_true, if_false]
        rw [decide_eq_false
          (show ¬((0:Int) < 0 ∧ (b.data.length : Int) - (b.pos : Int) < 0) from
            by omega)]
      · have hkpos : 0 < k := by omega
        rw [show (decide (0 < k)) = true from decide_eq_true hkpos]
        simp only [Bool.true_and]
        by_cases hempty : dat.length = 0
        · rw [show (decide (dat.length = 0)) = true from decide_eq_true hempty]
          rw [if_pos rfl]
          rw [decide_eq_true
            (show 0 < k ∧ (b.data.length : Int) - (b.pos : Int) < k from
              ⟨hkpos, by omega⟩)]
          cases thr <;> rfl
        · rw [show (decide (dat.length = 0)) = false from
            decide_eq_false hempty]
          simp only [Bool.false_eq_true, if_false]
          by_cases hshort : (dat.length : Int) < k
          · rw [show (decide (k ≠ 0 ∧ (dat.length : Int) < k)) = true from
              decide_eq_true ⟨by omega, hshort⟩]
            rw [if_pos rfl]
            rw [rawSeek_base false
              ⟨b.data, b.pos + (k.toNat ⊓ (b.data.length - b.pos))⟩
              ((((b.pos + (k.toNat ⊓ (b.data.length - b.pos))) : Nat) : Int) -
                (dat.length : Int)) (by omega)]
            rw [decide_eq_true
              (show 0 < k ∧ (b.data.length : Int) - (b.pos : Int) < k from
                ⟨hkpos, by omega⟩)]
            cases thr <;> rfl
          · rw [show (decide (k ≠ 0 ∧ (dat.length : Int) < k)) = false from
              decide_eq_false (by omega)]
            simp only [Bool.false_eq_true, if_false]
            rw [decide_eq_false
              (show ¬(0 < k ∧ (b.data.length : Int) - (b.pos : Int) < k) from
                by omega)]

/-- C3 (amended): for the file-backed reader the spec's invariant holds of
the latched flag that `eof()` reports — every `seek` (any destination, any
whence) leaves the flag cleared, and a `read(k)` sets it exactly when the
request exceeded the bytes available (or it was already set); for the
buffer-backed reader every `seek` likewise clears the internal latched
flag and `read(k)` sets it exactly on over-consumption, but its `eof()`
observer instead reports whether the position equals the buffer length,
independent of that flag. -/
theorem reader_c3_amended :
    (∀ (f : FileReader) (b : ByteSrc) (ofs : Int) (w : Nat),
      ((FileReader.seek f b ofs w).2.1).eofFlag = false) ∧
    (∀ (flag : Bool) (b : ByteSrc) (k : Int) (thr : Bool),
      ((FileReader.read ⟨none, flag⟩ b (some k) thr).2.1).eofFlag =
        (flag || decide (0 < k ∧ (b.data.length : Int) - (b.pos : Int) < k))) ∧
    (∀ (d : DataReader) (ofs : Int) (w : Nat),
      ((DataReader.seek d ofs w).2).eofFlag = false) ∧
    (∀ d : DataReader, DataReader.eof d = decide (d.pos = d.data.length)) ∧
    (∀ (d : DataReader) (k : Int),
      ((DataReader.read d (some k)).2).eofFlag =
        (d.eofFlag || decide ((d.data.length : Int) < (d.pos : Int) + k))) := by
  refine ⟨?_, fileReader_read_eofFlag, ?_, fun d => rfl, ?_⟩
  · intro f b ofs w
    rfl
  · intro d ofs w
    simp only [DataReader.seek]
    repeat' split
    all_goals rfl
  · intro d k
    obtain ⟨dat, pos, e⟩ := d
    cases e with
    | true => rfl
    | false =>
      simp only [DataReader.read, Bool.false_or]
      split
      · simp at *
      · split
        · next h => exact (decide_eq_true h).symm
        · next h => exact (decide_eq_false h).symm

/-! ### Container-decode inversion facts (C4, C5) -/

/-- Any delegated read (raw or through a window) returns a slice starting
at the current position and advances exactly by the number of bytes it
could supply. -/
theorem rawRead_shape (f : FileReader) (b : ByteSrc) (n : Option Int) :
    ∃ kk, kk ≤ b.data.length - b.pos ∧
      FileReader.rawRead f b n =
        ((b.data.drop b.pos).take kk, ⟨b.data, b.pos + kk⟩) := by
  cases f with
  | mk w e =>
    cases w with
    | none =>
      simp only [FileReader.rawRead, ByteSrc.read]
      refine ⟨_, ?_, rfl⟩
      cases n with
      | none => simp only []; omega
      | some m => simp only []; split <;> omega
    | some r =>
      cases hs : r.stop with
      | none =>
        simp only [FileReader.rawRead, StreamRange.read, hs, ByteSrc.read]
        refine ⟨_, ?_, rfl⟩
        cases n with
        | none => simp only []; omega
        | some m => simp only []; split <;> omega
      | some eend =>
        simp only [FileReader.rawRead, StreamRange.read, hs, ByteSrc.read]
        refine ⟨_, ?_, rfl⟩
        split <;> omega

theorem read_ok_inv (f f' : FileReader) (b b' : ByteSrc) (k : Nat)
    (bs : List Nat)
    (h : FileReader.read f b (some (k : Int)) false = (.ok (some bs), f', b'))
    (hlen : bs.length = k) :
    f'.win = f.win ∧ b'.data = b.data ∧ b'.pos = b.pos + k ∧
    bs = (b.data.drop b.pos).take k := by
  obtain ⟨kk, hkk, hraw⟩ := rawRead_shape f b (some (k : Int))
  have hlkk : ((b.data.drop b.pos).take kk).length = kk := by simp; omega
  by_cases hf : f.eofFlag
  · simp only [FileReader.read, hf, if_true] at h
    cases h
  · simp only [FileReader.read, hf, Bool.false_eq_true, if_false, hraw] at h
    split at h
    · -- cond1: wanted data, got none
      next hcond =>
        simp only [Bool.and_eq_true, decide_eq_true_eq,
          List.isEmpty_iff] at hcond
        simp only [Prod.mk.injEq, Except.ok.injEq, Option.some.injEq] at h
        obtain ⟨hbs, _, _⟩ := h
        rw [← hbs] at hlen
        rw [hcond.2] at hlen
        simp at hlen
        omega
    · split at h
      · -- cond2: short read
        next hcond =>
          simp only [decide_eq_true_eq] at hcond
          split at h
          · cases h
          · next =>
            simp only [Prod.mk.injEq, Except.ok.injEq, Option.some.injEq] at h
            obtain ⟨hbs, _, _⟩ := h
            rw [← hbs, hlkk] at hlen
            subst hlen
            exfalso
            rw [hlkk] at hcond
            omega
      · -- plain successful read
        simp only [Prod.mk.injEq, Except.ok.injEq, Option.some.injEq] at h
        obtain ⟨hbs, hf', hb'⟩ := h
        rw [← hbs, hlkk] at hlen
        subst hlen
        subst hf'
        subst hb'
        simp [hbs]

theorem readU_ok_inv (f f' : FileReader) (b b' : ByteSrc) (k : Nat)
    (bs : List Nat) (h : FileReader.readU f b k = (.ok bs, f', b')) :
    f'.win = f.win ∧ b'.data = b.data ∧ b'.pos = b.pos + k ∧
    bs = (b.data.drop b.pos).take k := by
  simp only [FileReader.readU] at h
  split at h
  · cases h
  · cases h
  · next bs0 f0 b0 hread =>
    split at h
    · next hchk =>
      simp only [Prod.mk.injEq, Except.ok.injEq] at h
      obtain ⟨hbs, hf', hb'⟩ := h
      subst hbs; subst hf'; subst hb'
      exact read_ok_inv _ _ _ _ _ _ hread hchk
    · cases h

theorem read16le_ok_inv (f f' : FileReader) (b b' : ByteSrc) (v : Nat)
    (h : FileReader.read16le f b = (.ok v, f', b')) :
    f'.win = f.win ∧ b'.data = b.data ∧ b'.pos = b.pos + 2 ∧
    v = le ((b.data.drop b.pos).take 2) := by
  simp only [FileReader.read16le] at h
  split at h
  · next bs0 f0 b0 hU =>
    simp only [Prod.mk.injEq, Except.ok.injEq] at h
    obtain ⟨hv, hf', hb'⟩ := h
    subst hv; subst hf'; subst hb'
    obtain ⟨h1, h2, h3, h4⟩ := readU_ok_inv _ _ _ _ _ _ hU
    exact ⟨h1, h2, h3, by rw [h4]⟩
  · cases h

theorem read32le_ok_inv (f f' : FileReader) (b b' : ByteSrc) (v : Nat)
    (h : FileReader.read32le f b = (.ok v, f', b')) :
    f'.win = f.win ∧ b'.data = b.data ∧ b'.pos = b.pos + 4 ∧
    v = le ((b.data.drop b.pos).take 4) := by
  simp only [FileReader.read32le] at h
  split at h
  · next bs0 f0 b0 hU =>
    simp only [Prod.mk.injEq, Except.ok.injEq] at h
    obtain ⟨hv, hf', hb'⟩ := h
    subst hv; subst hf'; subst hb'
    obtain ⟨h1, h2, h3, h4⟩ := readU_ok_inv _ _ _ _ _ _ hU
    exact ⟨h1, h2, h3, by rw [h4]⟩
  · cases h

theorem read64le_ok_inv (f f' : FileReader) (b b' : ByteSrc) (v : Nat)
    (h : FileReader.read64le f b = (.ok v, f', b')) :
    f'.win = f.win ∧ b'.data = b.data ∧ b'.pos = b.pos + 8 ∧
    v = le ((b.data.drop b.pos).take 8) := by
  simp only [FileReader.read64le] at h
  split at h
  · next bs0 f0 b0 hU =>
    simp only [Prod.mk.injEq, Except.ok.injEq] at h
    obtain ⟨hv, hf', hb'⟩ := h
    subst hv; subst hf'; subst hb'
    obtain ⟨h1, h2, h3, h4⟩ := readU_ok_inv _ _ _ _ _ _ hU
    exact ⟨h1, h2, h3, by rw [h4]⟩
  · cases h

theorem tell_shift (f f' : FileReader) (b b' : ByteSrc) (k : Nat)
    (hw : f'.win = f.win) (hp : b'.pos = b.pos + k) :
    FileReader.tell f' b' = FileReader.tell f b + k := by
  unfold FileReader.tell
  rw [hw]
  cases f.win with
  | none => simp [hp]
  | some r => simp [StreamRange.tell, hp]; ring

theorem seek_cur (f : FileReader) (b : ByteSrc) (kk : Nat) :
    ∃ res, FileReader.seek f b (kk : Int) 1 =
      (.ok res, ⟨f.win, false⟩, ⟨b.data, b.pos + kk⟩) := by
  cases f with
  | mk w e =>
    cases w with
    | none =>
      refine ⟨((b.pos + kk : Nat) : Int), ?_⟩
      simp [FileReader.seek, FileReader.rawSeek, ByteSrc.seek]
      rw [if_neg (by omega : ¬ ((b.pos : Int) + (kk : Int) < 0))]
      have ht : ((b.pos : Int) + (kk : Int)).toNat = b.pos + kk := by omega
      rw [ht]
      simp
    | some r =>
      refine ⟨((b.pos + kk : Nat) : Int) - (r.start : Int), ?_⟩
      simp [FileReader.seek, FileReader.rawSeek, StreamRange.seek,
        ByteSrc.seek]
      rw [if_neg (by omega : ¬ ((b.pos : Int) + (kk : Int) < 0))]
      have ht : ((b.pos : Int) + (kk : Int)).toNat = b.pos + kk := by omega
      rw [ht]
      simp

theorem bsufEntry_ok_inv (fh fh' : FileReader) (b b' : ByteSrc)
    (ent : BsufEntry) (h : BsufEntry.decode fh b = (.ok ent, fh', b')) :
    fh'.win = fh.win ∧ b'.data = b.data ∧ b'.pos = b.pos + 8 + ent.size ∧
    ent.ofs = FileReader.tell fh b + 6 := by
  unfold BsufEntry.decode at h
  split at h
  · cases h
  · next size f1 b1 h32 =>
    split at h
    · cases h
    · next ty f2 b2 h16 =>
      obtain ⟨hw1, hd1, hp1, _⟩ := read32le_ok_inv _ _ _ _ _ h32
      obtain ⟨hw2, hd2, hp2, _⟩ := read16le_ok_inv _ _ _ _ _ h16
      split at h
      · cases h
      · next r3 f3 b3 hseek =>
        obtain ⟨res, hs⟩ := seek_cur f2 b2 size
        rw [hs] at hseek
        simp only [Prod.mk.injEq, Except.ok.injEq] at hseek
        obtain ⟨_, hf3, hb3⟩ := hseek
        split at h
        · cases h
        · next ck f4 b4 h16b =>
          obtain ⟨hw4, hd4, hp4, _⟩ := read16le_ok_inv _ _ _ _ _ h16b
          simp only [Prod.mk.injEq, Except.ok.injEq] at h
          obtain ⟨hent, hf', hb'⟩ := h
          subst hent; subst hf'; subst hb'
          rw [← hf3] at hw4
          rw [← hb3] at hp4 hd4
          refine ⟨?_, ?_, ?_, ?_⟩
          · rw [hw4]
            simp only []
            rw [hw2, hw1]
          · rw [hd4]
            simp only []
            rw [hd2, hd1]
          · rw [hp4]
            simp only []
            rw [hp2, hp1]
            omega
          · simp only []
            have ht6 := tell_shift fh f2 b b2 6 (by rw [hw2, hw1])
              (by rw [hp2, hp1])
            exact_mod_cast ht6

theorem decodeEntries_ok_inv : ∀ (fuel bound : Nat) (fh fh' : FileReader)
    (b b' : ByteSrc) (es : List BsufEntry),
    BsufFile.decodeEntries fuel bound fh b = (.ok es, fh', b') →
    fh'.win = fh.win ∧ b'.data = b.data ∧ b.pos ≤ b'.pos ∧
    (bound : Int) ≤ FileReader.tell fh' b' ∧
    ∀ e ∈ es, FileReader.tell fh b + 6 ≤ e.ofs ∧ e.ofs < (bound : Int) + 6 := by
  intro fuel
  induction fuel with
  | zero =>
    intro bound fh fh' b b' es h
    simp only [BsufFile.decodeEntries] at h
    split at h
    · cases h
    · next hguard =>
      simp only [Prod.mk.injEq, Except.ok.injEq] at h
      obtain ⟨hes, hf, hb⟩ := h
      subst hes; subst hf; subst hb
      refine ⟨rfl, rfl, le_refl _, by omega, by simp⟩
  | succ fuel ih =>
    intro bound fh fh' b b' es h
    simp only [BsufFile.decodeEntries] at h
    split at h
    · next hguard =>
      split at h
      · cases h
      · next ent f1 b1 hent =>
        split at h
        · cases h
        · next es' f2 b2 hrec =>
          simp only [Prod.mk.injEq, Except.ok.injEq] at h
          obtain ⟨hes, hf, hb⟩ := h
          subst hes; subst hf; subst hb
          obtain ⟨hw1, hd1, hp1, hofs⟩ := bsufEntry_ok_inv _ _ _ _ _ hent
          obtain ⟨hw2, hd2, hple, htell, hall⟩ :=
            ih bound f1 _ b1 _ es' hrec
          have htchain : FileReader.tell f1 b1 =
              FileReader.tell fh b + ((8 + ent.size : Nat) : Int) :=
            tell_shift fh f1 b b1 (8 + ent.size) hw1 (by omega)
          refine ⟨by rw [hw2, hw1], by rw [hd2, hd1], by omega, htell, ?_⟩
          intro e he
          rcases List.mem_cons.mp he with rfl | hmem
          · constructor
            · omega
            · omega
          · obtain ⟨h1, h2⟩ := hall e hmem
            constructor
            · omega
            · exact h2
    · next hguard =>
      simp only [Prod.mk.injEq, Except.ok.injEq] at h
      obtain ⟨hes, hf, hb⟩ := h
      subst hes; subst hf; subst hb
      refine ⟨rfl, rfl, le_refl _, by omega, by simp⟩

/-- C4: whenever the container decoder succeeds, the entry loop stopped at
or past `declared_size + 0x10`: the position after the loop (`pexit`) is at
least that bound, every decoded entry's recorded payload offset lies
before the bound (each entry started strictly below it, and the offset is
its start plus the 6 header bytes), so no byte past the declared boundary
is ever decoded as a further entry, and the decoder then reads exactly one
trailing 16-bit checksum from `pexit`, finishing at `pexit + 2`. -/
theorem bsuf_c4_entry_loop_bounded (data : List Nat) (f : BsufFile)
    (fh' : FileReader) (b' : ByteSrc)
    (h : BsufFile.decode data = (.ok f, fh', b')) :
    ∃ pexit : Nat,
      b'.pos = pexit + 2 ∧
      le ((data.drop 12).take 4) + 0x10 ≤ pexit ∧
      f.filechecksum = le ((data.drop pexit).take 2) ∧
      ∀ e ∈ f.entries, (22 : Int) ≤ e.ofs ∧
        e.ofs < (le ((data.drop 12).take 4) : Int) + 0x16 := by
  unfold BsufFile.decode at h
  dsimp only [] at h
  split at h
  · cases h
  · next magic f1 b1 h64 =>
    split at h
    · cases h
    · next hmagic =>
      split at h
      · cases h
      · next version f2 b2 h32a =>
        split at h
        · cases h
        · next filesize f3 b3 h32b =>
          split at h
          · cases h
          · next es f4 b4 hloop =>
            split at h
            · cases h
            · next ck f5 b5 h16 =>
              simp only [Prod.mk.injEq, Except.ok.injEq] at h
              obtain ⟨hfeq, hf', hb'⟩ := h
              subst hfeq; subst hf'; subst hb'
              obtain ⟨hw1, hd1, hp1, hm⟩ := read64le_ok_inv _ _ _ _ _ h64
              obtain ⟨hw2, hd2, hp2, hv⟩ := read32le_ok_inv _ _ _ _ _ h32a
              obtain ⟨hw3, hd3, hp3, hfs⟩ := read32le_ok_inv _ _ _ _ _ h32b
              obtain ⟨hwL, hdL, hpleL, htellL, hallL⟩ :=
                decodeEntries_ok_inv _ _ _ _ _ _ _ hloop
              obtain ⟨hw5, hd5, hp5, hck⟩ := read16le_ok_inv _ _ _ _ _ h16
              simp only [] at hd1 hp1 hw1
              have hd2' : b2.data = data := by rw [hd2, hd1]
              have hd3' : b3.data = data := by rw [hd3, hd2']
              have hd4' : b4.data = data := by rw [hdL, hd3']
              have hp2' : b2.pos = 12 := by rw [hp2, hp1]
              have hp3' : b3.pos = 16 := by rw [hp3, hp2']
              have hw3' : f3.win = none := by rw [hw3, hw2, hw1]
              have hw4' : f4.win = none := by rw [hwL, hw3']
              have hfs' : filesize = le ((data.drop 12).take 4) := by
                rw [hfs, hd2', hp2']
              have htell4 : FileReader.tell f4 b4 = (b4.pos : Int) := by
                unfold FileReader.tell
                rw [hw4']
              have htell3 : FileReader.tell f3 b3 = (16 : Int) := by
                unfold FileReader.tell
                rw [hw3', hp3']
                norm_num
              refine ⟨b4.pos, hp5, ?_, ?_, ?_⟩
              · rw [htell4] at htellL
                omega
              · simp only []
                rw [hck, hd4']
              · simp only []
                intro e he
                obtain ⟨hlo, hhi⟩ := hallL e he
                rw [htell3] at hlo
                rw [← hfs']
                constructor
                · omega
                · push_cast at hhi ⊢
                  omega

/-- C4 witness: the loop-boundedness theorem applied to the concrete
container `c6data` (declared size 0x0A, loop bound 0x1A): the loop stops
at position 30 ≥ 26, the single entry's offset 22 is inside the bound,
and the file checksum is read from position 30. -/
theorem bsuf_c4_entry_loop_bounded_witness :
    ∃ pexit : Nat,
      (32 : Nat) = pexit + 2 ∧
      le ((c6data.drop 12).take 4) + 0x10 ≤ pexit ∧
      (0 : Nat) = le ((c6data.drop pexit).take 2) ∧
      ∀ e ∈ [(⟨6, 0, 22, ⟨some ⟨22, some 28⟩, false⟩, 0⟩ : BsufEntry)],
        (22 : Int) ≤ e.ofs ∧
        e.ofs < (le ((c6data.drop 12).take 4) : Int) + 0x16 :=
  bsuf_c4_entry_loop_bounded c6data
    ⟨1, [⟨6, 0, 22, ⟨some ⟨22, some 28⟩, false⟩, 0⟩], 0⟩
    ⟨none, false⟩ ⟨c6data, 32⟩ rfl

/-- A raw-source `FileReader` read of `k` bytes that are fully available
succeeds, returning exactly the `k`-byte slice at the current position. -/
theorem readU_base_ok (b : ByteSrc) (k : Nat)
    (hk : b.pos + k ≤ b.data.length) :
    FileReader.readU ⟨none, false⟩ b k =
      (.ok ((b.data.drop b.pos).take k), ⟨none, false⟩, ⟨b.data, b.pos + k⟩) := by
  have hlen : ((b.data.drop b.pos).take k).length = k := by simp; omega
  simp only [FileReader.readU, FileReader.read, FileReader.rawRead,
    ByteSrc.read, isEmpty_decide, Bool.false_eq_true, if_false]
  simp only [if_neg (by omega : ¬ ((k : Nat) : Int) < 0)]
  have hmin : ((k : Nat) : Int).toNat ⊓ (b.data.length - b.pos) = k := by
    omega
  simp only [hmin]
  by_cases hk0 : k = 0
  · subst hk0
    simp
  · rw [show (decide (0 < ((k : Nat) : Int))) = true from
      decide_eq_true (by omega)]
    rw [show (decide (((b.data.drop b.pos).take k).length = 0)) = false from
      decide_eq_false (by omega)]
    simp only [Bool.true_and, Bool.false_eq_true, if_false]
    rw [show (decide (((k : Nat) : Int) ≠ 0 ∧
        ((((b.data.drop b.pos).take k).length : Nat) : Int) < ((k : Nat) : Int)))
        = false from decide_eq_false (by rw [hlen]; omega)]
    simp only [Bool.false_eq_true, if_false, hlen]
    simp

theorem read64le_start (data : List Nat) (h8 : 8 ≤ data.length) :
    FileReader.read64le ⟨none, false⟩ ⟨data, 0⟩ =
      (.ok (le (data.take 8)), ⟨none, false⟩, ⟨data, 8⟩) := by
  simp only [FileReader.read64le]
  rw [readU_base_ok ⟨data, 0⟩ 8 (by simpa using h8)]
  simp

/-- C5: for every input of at least 8 bytes whose leading 8 bytes, read as
a little-endian u64, differ from `0x663919145fab6655`, the container
decoder fails with `InvalidMagic` (and hence produces no decoded
entries). -/
theorem bsuf_c5_invalid_magic (data : List Nat) (h8 : 8 ≤ data.length)
    (hm : le (data.take 8) ≠ bsufMagic) :
    (BsufFile.decode data).1 = .error .invalidMagic := by
  unfold BsufFile.decode
  dsimp only []
  rw [read64le_start data h8]
  simp only [if_pos hm]

/-- C5 witness: decoding an 8-byte all-zero input (magic 0, not the
constant) fails with `InvalidMagic`. -/
theorem bsuf_c5_invalid_magic_witness :
    (8 ≤ (List.replicate 8 0).length ∧
      le ((List.replicate 8 0).take 8) ≠ bsufMagic) ∧
    (BsufFile.decode (List.replicate 8 0)).1 = .error .invalidMagic :=
  ⟨⟨by decide, by decide⟩,
    bsuf_c5_invalid_magic (List.replicate 8 0) (by decide) (by decide)⟩
